import Mathlib

/-!
Verification of the mcctl storage / config / process-control behavior.

Shallow embedding of the relevant Python functions from
`src/mcctl/modules/config.py`, `src/mcctl/storage.py` and `src/mcctl/proc.py`.
Pure logic is translated into executable Lean functions; Python runtime
errors are modelled with an explicit error type and `Except`.
-/

/-- The Python exception kinds that the embedded code can raise.
`valueError` carries the offending line, mirroring
`ValueError("Unable to set Property '{}'".format(line))`. -/
inductive PyErr where
  | assertionError
  | typeError
  | valueError (line : String)
  | attributeError
  | fileNotFoundError
  | fileExistsError
  | osError
  | eofError
  | overflowError
  | zeroDivisionError
  | nameError
deriving DecidableEq, Repr

/-- Characters stripped by Python `str.rstrip()` (whitespace). -/
def isPySpace (c : Char) : Bool :=
  c == ' ' || c == '\t' || c == '\n' || c == '\r' ||
  c == Char.ofNat 11 || c == Char.ofNat 12

/-- Python `line.rstrip()`: remove trailing whitespace. -/
def pyRstrip (s : String) : String :=
  ⟨(s.data.reverse.dropWhile isPySpace).reverse⟩

/-- Split a character list at the first `=`, if any. -/
def splitFirstEqAux : List Char → Option (List Char × List Char)
  | [] => none
  | c :: rest =>
    if c = '=' then some ([], rest)
    else
      match splitFirstEqAux rest with
      | none => none
      | some (a, b) => some (c :: a, b)

/-- Python `line.split("=", 1)` followed by the 2-tuple unpacking in
`key, value = line.split("=", 1)`: `some (key, value)` when the line
contains at least one `=` (split at the first occurrence), `none` when the
split yields a single element so that unpacking raises `ValueError`. -/
def pySplitOnceEq (s : String) : Option (String × String) :=
  match splitFirstEqAux s.data with
  | none => none
  | some (a, b) => some (⟨a⟩, ⟨b⟩)

/-- Python `line.startswith("#")`. -/
def startsWithHash (s : String) : Bool :=
  match s.data with
  | '#' :: _ => true
  | _ => false

/-- Python dict assignment `d[key] = value`: overwrite in place when the key
exists (insertion order of the first occurrence is kept), append otherwise. -/
def dictSet (d : List (String × String)) (k v : String) : List (String × String) :=
  if d.any (fun p => p.1 == k) then
    d.map (fun p => if p.1 == k then (k, v) else p)
  else d ++ [(k, v)]

/-- Python `dict.update(other)`: apply every pair of `other` on top of `d`. -/
def dictUpdate (d other : List (String × String)) : List (String × String) :=
  other.foldl (fun acc p => dictSet acc p.1 p.2) d

/-- A Python runtime value as far as `modules/config.py` needs one: an actual
list of lines, an open text-file handle (also iterated line by line), or a
builtin type object such as `list` itself. -/
inductive PyObj where
  | pyList (lines : List String)
  | pyFile (lines : List String)
  | pyType (name : String)
deriving DecidableEq, Repr

/-- The Python identity test `x is list`: true only when `x` is the builtin
type object `list` itself; an actual list value is never identical to its
type object. -/
def pyIsListTypeObject : PyObj → Bool
  | .pyType n => n == "list"
  | _ => false

/-- Iterating a Python object line by line: lists and file handles yield
their lines; iterating a type object raises `TypeError`. -/
def pyIterLines : PyObj → Except PyErr (List String)
  | .pyList ls => .ok ls
  | .pyFile ls => .ok ls
  | .pyType _ => .error .typeError

/-- The loop body of `propertiesToDict` (`modules/config.py` lines 22-32):
rstrip each line, skip lines starting with `#`, split the rest on the first
`=`; the bare `except` turns the unpacking failure of a line without `=`
into `ValueError` reporting the (rstripped) line. -/
def propertiesToDictLoop (dict : List (String × String)) :
    List String → Except PyErr (List (String × String))
  | [] => .ok dict
  | line :: rest =>
    let l := pyRstrip line
    if startsWithHash l then propertiesToDictLoop dict rest
    else
      match pySplitOnceEq l with
      | some (k, v) => propertiesToDictLoop (dictSet dict k v) rest
      | none => .error (.valueError l)

/-- `propertiesToDict` (`modules/config.py` lines 20-32), faithfully:
`assert propertyList is list` is an identity comparison against the builtin
type object `list`, so any actual list (or file handle) fails the assert and
the call raises `AssertionError`; only the type object itself passes, and
iterating it would raise `TypeError`. -/
def propertiesToDict (propertyList : PyObj) : Except PyErr (List (String × String)) :=
  if pyIsListTypeObject propertyList then
    match pyIterLines propertyList with
    | .ok lines => propertiesToDictLoop [] lines
    | .error e => .error e
  else .error .assertionError

/-- `setProperties` (`modules/config.py` lines 35-44), faithfully. The file
is opened with mode `"w+"`, which truncates it to empty before anything is
read; `propertiesToDict(configFile)` is then called on the file handle,
whose assert raises `AssertionError`. Were that reached anyway, the write
loop runs `newConfig.append("{0}={1}").format(key, value)`: `append` returns
`None`, so `.format` on it raises `AttributeError` on the first iteration.
Result: the outcome paired with the final on-disk file content. -/
def setProperties (fileLines : List String) (properties : List (String × String)) :
    Except PyErr Unit × List String :=
  let fileAfterOpen : List String := []
  match propertiesToDict (PyObj.pyFile fileAfterOpen) with
  | .error e => (.error e, fileAfterOpen)
  | .ok oldConfig =>
    let merged := dictUpdate oldConfig properties
    match merged with
    | [] => (.ok (), fileAfterOpen)
    | _ => (.error .attributeError, fileAfterOpen)

deriving instance DecidableEq for Except

/-- C3: the claim says `propertiesToDict` parses `["#comment", "a=1", "b=2=x"]`
to `{a: 1, b: 2=x}` and raises `ValueError` on a non-comment line without
`=`. The code as written instead raises `AssertionError` on every actual
list, because `assert propertyList is list` is an identity test against the
type object `list`; the post-assert loop (which its own assert message shows
was the intent) does behave exactly as claimed. -/
theorem propertiesToDict_assert_bug :
    propertiesToDict (PyObj.pyList ["#comment", "a=1", "b=2=x"]) =
      .error .assertionError ∧
    propertiesToDictLoop [] ["#comment", "a=1", "b=2=x"] =
      .ok [("a", "1"), ("b", "2=x")] ∧
    propertiesToDictLoop [] ["nope"] = .error (.valueError "nope") := by
  refine ⟨rfl, by decide, by decide⟩

/-- C2: the claim says the merge-write operation preserves existing keys,
applies the updates and writes one `key=value` line per entry. The code
instead truncates the file on open (`"w+"`), then crashes with
`AssertionError` inside `propertiesToDict(configFile)`: for the concrete
file `a=1` and updates `{b: 2}` the result is an error and an empty file,
so the key `a` is neither preserved nor rewritten. -/
theorem setProperties_bug :
    setProperties ["a=1"] [("b", "2")] = (.error .assertionError, []) := by
  rfl

/-- Python `str.lower()` (ASCII, which covers the y/n replies involved). -/
def pyLower (s : String) : String :=
  ⟨s.data.map Char.toLower⟩

/-- The confirmation loop shared by `remove` and `remove_jar`
(`storage.py` lines 304-305 and 329-330):
`while ans not in ("y", "n"): ans = input("Please answer [y]es or [n]o: ")`.
Note the re-prompted replies are *not* lowercased. The result is the pair
(answer that ended the loop was "y", number of `input()` calls consumed);
running out of replies models `input()` hitting EOF. -/
def confirmLoop (ans : String) : List String → Nat → Except PyErr (Bool × Nat)
  | rest, used =>
    if ans = "y" then .ok (true, used)
    else if ans = "n" then .ok (false, used)
    else
      match rest with
      | [] => .error .eofError
      | r :: rs => confirmLoop r rs (used + 1)

/-- `remove` (`storage.py` lines 287-307). Inputs model the environment:
does the instance path exist, what the service-state controller reports
(`service.is_enabled(instance)`, `service.is_active(...)`), the force flag,
and the sequence of interactive replies. The result is `(deleted, replies
consumed)`; an error result means the function raised before any
filesystem mutation (`remove_all` runs only in the `ok (true, _)` case). -/
def remove (exists_ enabled active force : Bool) (replies : List String) :
    Except PyErr (Bool × Nat) :=
  if ¬ exists_ then .error .fileNotFoundError
  else if enabled || active then .error .osError
  else if force then .ok (true, 0)
  else
    match replies with
    | [] => .error .eofError
    | r :: rest => confirmLoop (pyLower r) rest 1

/-- `remove_jar` (`storage.py` lines 310-335). `isAll` models
`source == "all"` (which only changes the resolved path and whether the
deletion is an unlink or a tree removal); the confirmation logic is the
same shape as `remove`. -/
def remove_jar (isAll exists_ force : Bool) (replies : List String) :
    Except PyErr (Bool × Nat) :=
  if ¬ exists_ then .error .fileNotFoundError
  else if force then .ok (true, 0)
  else
    match replies with
    | [] => .error .eofError
    | r :: rest => confirmLoop (pyLower r) rest 1

/-- C5: removing a nonexistent instance fails with NotFound; an active or
enabled instance fails with the Conflict error (`OSError`) before any
prompt or deletion, for every force flag and reply sequence. -/
theorem remove_guards (force enabled active : Bool) (replies : List String) :
    remove false enabled active force replies = .error .fileNotFoundError ∧
    (enabled = true ∨ active = true →
      remove true enabled active force replies = .error .osError) := by
  constructor
  · simp [remove]
  · intro h
    rcases h with h | h <;> simp [remove, h]

/-- Witness for C5 at concrete inputs. -/
theorem remove_guards_witness :
    remove false false false false [] = .error .fileNotFoundError ∧
    remove true true false true ["n"] = .error .osError :=
  ⟨(remove_guards false false false []).1,
   (remove_guards true true false ["n"]).2 (Or.inl rfl)⟩

/-- Characterization of the confirmation loop: when it returns, either the
initial answer already decided (and the reply count is unchanged), or the
deciding reply is the re-prompted reply at index `u - used - 1`, which must
be exactly `"y"` or `"n"`; deletion happens exactly on `"y"`. -/
theorem confirmLoop_spec (rest : List String) :
    ∀ (ans : String) (used : Nat) (d : Bool) (u : Nat),
      confirmLoop ans rest used = .ok (d, u) →
      (u = used ∧ (d = true ↔ ans = "y") ∧ (ans = "y" ∨ ans = "n")) ∨
      ((u - used - 1 < rest.length) ∧
        (d = true ↔ rest.getD (u - used - 1) "" = "y") ∧
        (rest.getD (u - used - 1) "" = "y" ∨ rest.getD (u - used - 1) "" = "n") ∧
        used < u) := by
  induction rest with
  | nil =>
    intro ans used d u h
    simp only [confirmLoop] at h
    by_cases hy : ans = "y"
    · simp [hy] at h
      exact Or.inl ⟨h.2.symm, by simp [h.1.symm, hy], Or.inl hy⟩
    · by_cases hn : ans = "n"
      · simp [hy, hn] at h
        exact Or.inl ⟨h.2.symm, by simp [← h.1, hy], Or.inr hn⟩
      · simp [hy, hn] at h
  | cons r rs ih =>
    intro ans used d u h
    simp only [confirmLoop] at h
    by_cases hy : ans = "y"
    · simp [hy] at h
      exact Or.inl ⟨h.2.symm, by simp [h.1.symm, hy], Or.inl hy⟩
    · by_cases hn : ans = "n"
      · simp [hy, hn] at h
        exact Or.inl ⟨h.2.symm, by simp [← h.1, hy], Or.inr hn⟩
      · simp only [hy, hn, if_false] at h
        rcases ih r (used + 1) d u h with ⟨hu, hd, hyn⟩ | ⟨hlt, hd, hyn, hgt⟩
        · refine Or.inr ?_
          have hidx : u - used - 1 = 0 := by omega
          simp only [hidx, List.getD_cons_zero]
          exact ⟨by simp, hd, hyn, by omega⟩
        · refine Or.inr ?_
          have hidx : u - used - 1 = (u - (used + 1) - 1) + 1 := by omega
          simp only [hidx, List.getD_cons_succ, List.length_cons]
          exact ⟨by omega, hd, hyn, by omega⟩

/-- If the first reply is (case-insensitively) neither y nor n and every
re-prompted reply is not exactly `"y"` or `"n"`, the loop consumes all of
them, re-prompting each time, and never deletes (it is still waiting for
input when the replies run out). -/
theorem confirmLoop_exhaust :
    ∀ (rest : List String) (ans : String) (used : Nat),
      ans ≠ "y" → ans ≠ "n" → (∀ r ∈ rest, r ≠ "y" ∧ r ≠ "n") →
      confirmLoop ans rest used = .error .eofError := by
  intro rest
  induction rest with
  | nil =>
    intro ans used hy hn _
    simp [confirmLoop, hy, hn]
  | cons r rs ih =>
    intro ans used hy hn hall
    simp only [confirmLoop, hy, hn, if_false]
    exact ih r (used + 1) (hall r (by simp)).1 (hall r (by simp)).2
      (fun x hx => hall x (by simp [hx]))

/-- C6: for instance and jar removal with force off (and the earlier guards
passed, since otherwise no prompt is reached): whenever the prompt loop
terminates with `(deleted, u)` after consuming `u` replies, deletion
happened exactly when the final (u-th) reply equals "y" case-insensitively;
and a run whose replies are all non-answers only ever re-prompts, never
deletes. -/
theorem remove_confirmation :
    (∀ (replies : List String) (d : Bool) (u : Nat),
      remove true false false false replies = .ok (d, u) →
      u - 1 < replies.length ∧
      (d = true ↔ pyLower (replies.getD (u - 1) "") = "y")) ∧
    (∀ (replies : List String) (d : Bool) (u : Nat),
      remove_jar false true false replies = .ok (d, u) →
      u - 1 < replies.length ∧
      (d = true ↔ pyLower (replies.getD (u - 1) "") = "y")) ∧
    (∀ (replies : List String),
      (∀ r ∈ replies.take 1, pyLower r ≠ "y" ∧ pyLower r ≠ "n") →
      (∀ r ∈ replies.drop 1, r ≠ "y" ∧ r ≠ "n") →
      remove true false false false replies = .error .eofError) := by
  have ylow : pyLower "y" = "y" := by decide
  have nlow : pyLower "n" = "n" := by decide
  have ynot : pyLower "n" ≠ "y" := by decide
  have main : ∀ (replies : List String) (d : Bool) (u : Nat),
      (match replies with
        | [] => (.error .eofError : Except PyErr (Bool × Nat))
        | r :: rest => confirmLoop (pyLower r) rest 1) = .ok (d, u) →
      u - 1 < replies.length ∧
      (d = true ↔ pyLower (replies.getD (u - 1) "") = "y") := by
    intro replies d u h
    match replies with
    | [] => simp at h
    | r :: rest =>
      rcases confirmLoop_spec rest (pyLower r) 1 d u h with
        ⟨hu, hd, _⟩ | ⟨hlt, hd, hyn, hgt⟩
      · subst hu
        simpa using hd
      · have hidx : u - 1 = (u - 1 - 1) + 1 := by omega
        constructor
        · simp only [List.length_cons]
          omega
        · rw [hidx, List.getD_cons_succ]
          rcases hyn with hfin | hfin
          · rw [hfin] at hd ⊢
            rw [ylow]
            exact hd
          · rw [hfin] at hd ⊢
            rw [nlow]
            exact hd
  refine ⟨?_, ?_, ?_⟩
  · intro replies d u h
    exact main replies d u (by simpa [remove] using h)
  · intro replies d u h
    exact main replies d u (by simpa [remove_jar] using h)
  · intro replies h1 h2
    match replies with
    | [] => rfl
    | r :: rest =>
      have hr := h1 r (by simp)
      simp only [List.drop_succ_cons, List.drop_zero] at h2
      simp only [remove, Bool.not_true, if_false, Bool.or_self]
      exact confirmLoop_exhaust rest (pyLower r) 1 hr.1 hr.2 h2

/-- Witness for C6 at concrete inputs: an exhausted non-answer run only
re-prompts, and a terminating run `["x", "y"]` deletes on its final reply. -/
theorem remove_confirmation_witness :
    remove true false false false ["maybe"] = .error .eofError ∧
    (2 - 1 < (["x", "y"] : List String).length ∧
      (true = true ↔ pyLower ((["x", "y"] : List String).getD (2 - 1) "") = "y")) :=
  ⟨remove_confirmation.2.2 ["maybe"] (by decide) (by decide),
   remove_confirmation.1 ["x", "y"] true 2 (by decide)⟩

/-- Python `lines[-limit:]` for a non-negative `limit`: the last `limit`
elements, or the whole list when `limit = 0` (because `-0 == 0`). -/
def pyTailSlice (limit : Nat) (l : List String) : List String :=
  if limit = 0 then l else l.drop (l.length - limit)

/-- The accumulation loop of `inspect` (`storage.py` lines 353-358), iterating
the log files newest-to-oldest (`reversed(logs)`), prepending each file's
lines (`lines = log_file.readlines() + lines`), and breaking once
`len(lines) >= limit and limit != 0`. Lines carry their own newline
characters, exactly as `readlines` returns them. -/
def inspectAccum (limit : Nat) : List (List String) → List String → List String
  | [], lines => lines
  | log :: rest, lines =>
    let lines' := log ++ lines
    if limit ≠ 0 ∧ limit ≤ lines'.length then lines'
    else inspectAccum limit rest lines'

/-- `inspect` (`storage.py` lines 338-361). The input is the instance's log
set oldest-to-newest (the sorted directory listing), each log given as its
list of lines (`.gz` decompression is transparent in this model). The
result is the exact string printed: `print(''.join(lines_out), end='')`,
i.e. the concatenation of the selected lines with nothing appended after
the final one. A negative limit raises `OverflowError`. -/
def inspect (logs : List (List String)) (limit : Int) : Except PyErr String :=
  if limit < 0 then .error .overflowError
  else
    let lines := inspectAccum limit.toNat logs.reverse []
    .ok (String.join (pyTailSlice limit.toNat lines))

/-- The accumulation loop always produces the lines of the `j` newest log
files (for some `j`) in chronological order, in front of the accumulator;
it stops early only once the limit is reached. -/
theorem inspectAccum_spec (k : Nat) :
    ∀ (revlogs : List (List String)) (acc : List String),
      ∃ j, j ≤ revlogs.length ∧
        inspectAccum k revlogs acc = ((revlogs.take j).reverse).flatten ++ acc ∧
        (j = revlogs.length ∨
          (k ≠ 0 ∧ k ≤ (inspectAccum k revlogs acc).length)) := by
  intro revlogs
  induction revlogs with
  | nil =>
    intro acc
    exact ⟨0, Nat.le_refl 0, by simp [inspectAccum], Or.inl rfl⟩
  | cons log rest ih =>
    intro acc
    by_cases hbrk : k ≠ 0 ∧ k ≤ (log ++ acc).length
    · refine ⟨1, by simp, ?_, ?_⟩
      · simp only [inspectAccum, if_pos hbrk]
        simp
      · refine Or.inr ⟨hbrk.1, ?_⟩
        simp only [inspectAccum, if_pos hbrk]
        exact hbrk.2
    · obtain ⟨j, hj, heq, hcond⟩ := ih (log ++ acc)
      refine ⟨j + 1, by simpa using Nat.succ_le_succ hj, ?_, ?_⟩
      · simp only [inspectAccum, if_neg hbrk]
        rw [heq]
        simp [List.flatten_append, List.append_assoc]
      · simp only [inspectAccum, if_neg hbrk]
        rcases hcond with h | h
        · exact Or.inl (by simp [h])
        · exact Or.inr h

/-- The last `k` elements of a suffix of length at least `k` are the last
`k` elements of the whole list. -/
theorem tailSlice_suffix (k : Nat) (s l : List String) (h : s <:+ l)
    (hk : k ≤ s.length) (hk0 : k ≠ 0) : pyTailSlice k s = pyTailSlice k l := by
  obtain ⟨t, rfl⟩ := h
  simp only [pyTailSlice, if_neg hk0]
  have harith : (t ++ s).length - k = t.length + (s.length - k) := by
    simp only [List.length_append]
    omega
  rw [harith, List.drop_append]

/-- C7: a negative limit fails with `OverflowError`; for every non-negative
limit the printed string is exactly the concatenation of the last `limit`
lines of the full chronological log (all lines when the limit is 0), with
nothing appended after the final line. -/
theorem inspect_windowing (logs : List (List String)) (limit : Int) :
    (limit < 0 → inspect logs limit = .error .overflowError) ∧
    (0 ≤ limit →
      inspect logs limit =
        .ok (String.join (pyTailSlice limit.toNat logs.flatten))) := by
  constructor
  · intro h
    simp [inspect, h]
  · intro h
    have hnot : ¬ limit < 0 := by omega
    simp only [inspect, if_neg hnot]
    refine congrArg _ (congrArg _ ?_)
    obtain ⟨j, hj, heq, hcond⟩ := inspectAccum_spec limit.toNat logs.reverse []
    rw [heq]
    have hs : (List.take j logs.reverse).reverse =
        List.drop (logs.length - j) logs := by
      rw [List.take_reverse, List.reverse_reverse]
    rcases hcond with hfull | ⟨hk0, hklen⟩
    · subst hfull
      rw [List.take_length, List.reverse_reverse]
      simp
    · rw [heq] at hklen
      simp only [List.append_nil] at hklen ⊢
      rw [hs] at hklen ⊢
      have hsuffix : (List.drop (logs.length - j) logs).flatten <:+ logs.flatten := by
        refine ⟨(List.take (logs.length - j) logs).flatten, ?_⟩
        rw [← List.flatten_append, List.take_append_drop]
      exact tailSlice_suffix limit.toNat _ _ hsuffix hklen hk0

/-- A concrete three-file log set, oldest to newest, five lines each. -/
def logsThreeByFive : List (List String) :=
  [["a1\n", "a2\n", "a3\n", "a4\n", "a5\n"],
   ["b1\n", "b2\n", "b3\n", "b4\n", "b5\n"],
   ["c1\n", "c2\n", "c3\n", "c4\n", "c5\n"]]

/-- Witness for C7: limit 7 prints the last 7 lines (from the two newest
files only), limit 0 prints all 15 lines, a negative limit fails. -/
theorem inspect_windowing_witness :
    inspect logsThreeByFive 7 = .ok "b4\nb5\nc1\nc2\nc3\nc4\nc5\n" ∧
    inspect logsThreeByFive 0 =
      .ok "a1\na2\na3\na4\na5\nb1\nb2\nb3\nb4\nb5\nc1\nc2\nc3\nc4\nc5\n" ∧
    inspect logsThreeByFive (-1) = .error .overflowError :=
  ⟨((inspect_windowing logsThreeByFive 7).2 (by decide)).trans (by decide),
   ((inspect_windowing logsThreeByFive 0).2 (by decide)).trans (by decide),
   (inspect_windowing logsThreeByFive (-1)).1 (by decide)⟩

/-- A zip archive member as `zipfile` exposes it: `ZipInfo` has the
attributes `filename` and `file_size` (and no attribute `name`); the
member's bytes are carried alongside. -/
structure ZipEntry where
  filename : String
  file_size : Nat
  content : String
deriving DecidableEq, Repr

/-- Accessing `x.name` on a `ZipInfo`: the class defines no such attribute,
so the lookup raises `AttributeError` (the code of `mc_import` itself uses
the real attribute `x.filename` three lines below). -/
def zipInfoNameAttr (_ : ZipEntry) : Except PyErr String :=
  .error .attributeError

/-- Substring test, Python's `needle in hay`. -/
def containsSub (hay needle : List Char) : Bool :=
  hay.tails.any (fun t => needle.isPrefixOf t)

/-- Characters of a path up to the first `/`. -/
def firstSegChars : List Char → List Char
  | [] => []
  | c :: rest => if c = '/' then [] else c :: firstSegChars rest

/-- `rel_path.parts[0]`: the first segment of a relative path. -/
def firstSeg (p : String) : String :=
  ⟨firstSegChars p.data⟩

/-- `get_relative_paths(server_path, world)` as used by `export`
(`storage.py` line 262): keep the relative paths whose first segment
contains `world` as a substring (the empty filter keeps everything). -/
def exportSelect (files : List (String × String)) (world : String) :
    List (String × String) :=
  files.filter (fun f => containsSub (firstSeg f.1).data world.data)

/-- The archive-writing loop of `export` (`storage.py` lines 266-272): for
every selected file it first renders the progress line, whose percentage
`written * 100 / total_size` raises `ZeroDivisionError` when the selected
set's total size is zero; only then is the member written. -/
def exportWrite (total : Nat) : List (String × String) → Except PyErr (List ZipEntry)
  | [] => .ok []
  | (p, c) :: rest =>
    if total = 0 then .error .zeroDivisionError
    else
      match exportWrite total rest with
      | .ok others => .ok (⟨p, c.length, c⟩ :: others)
      | .error e => .error e

/-- `export` (`storage.py` lines 234-284; named `mc_export` here since `export`
is a Lean keyword), on the data that matters here:
the instance's relative file listing with contents (sizes are byte
lengths), the world-only flag and the instance's `level-name`. Returns the
archive members written (paths relative to the instance root). -/
def mc_export (files : List (String × String)) (world_only : Bool)
    (level_name : String) : Except PyErr (List ZipEntry) :=
  let world := if world_only then level_name else ""
  let file_list := exportSelect files world
  let total_size := (file_list.map (fun f => f.2.length)).sum
  exportWrite total_size file_list

/-- The generator `(x for x in zip_file.infolist() if x.name.startswith(filter_str))`
(`storage.py` line 478), consumed once: evaluating it forces `x.name` on
each member, which raises `AttributeError` on the first one. -/
def importFileListGen (entries : List ZipEntry) :
    Except PyErr (List ZipEntry) :=
  match entries with
  | [] => .ok []
  | x :: _ =>
    match zipInfoNameAttr x with
    | .error e => .error e
    | .ok _ => .ok entries

/-- `mc_import` (`storage.py` lines 451-488), world-only off being the case
exercised here (`world_only = True` would hit `tmpf.NamedTemporaryFile()`
with `tmpf` never imported, a `NameError`). The existence guard mirrors
`instance_path.exists() != world_only`. `file_list` is a single-use
generator: the `t_size` sum consumes it, raising the `AttributeError` of
`x.name` on any non-empty archive; the extraction loop then iterates the
already-exhausted generator, so it extracts nothing. The result is the
list of (destination path relative to the instance dir, content) written. -/
def mc_import (instanceExists world_only : Bool) (entries : List ZipEntry) :
    Except PyErr (List (String × String)) :=
  if instanceExists ≠ world_only then
    .error (if world_only then .fileNotFoundError else .fileExistsError)
  else if world_only then .error .nameError
  else
    match importFileListGen entries with
    | .error e => .error e
    | .ok _consumed =>
      let exhausted : List ZipEntry := []
      .ok (exhausted.map (fun z => (z.filename, z.content)))

/-- C1: the claim says export-then-import into a fresh instance reproduces
every member byte-for-byte. On the concrete one-file instance
`server.properties ↦ "motd=hi"`, export produces the expected archive, but
importing it into a fresh instance raises `AttributeError` (the `t_size`
sum forces `x.name`, an attribute `ZipInfo` does not have) and no file is
ever reproduced. -/
theorem export_import_roundtrip_bug :
    mc_export [("server.properties", "motd=hi")] false "" =
      .ok [⟨"server.properties", 7, "motd=hi"⟩] ∧
    mc_import false false [⟨"server.properties", 7, "motd=hi"⟩] =
      .error .attributeError := by
  constructor
  · decide
  · rfl

/-- C10 counterexample: a world-only export where no relative path's first
segment contains the level name selects an empty file set (total size
zero); the claim says this raises a division-by-zero error, but the
progress line is only rendered inside the per-file loop, which never runs:
the export succeeds and returns an empty archive. -/
theorem export_zero_counterexample :
    mc_export [("config.yml", "abc")] true "myworld" = .ok [] ∧
    exportSelect [("config.yml", "abc")] "myworld" = [] := by
  decide

/-- C10 amended: export raises `ZeroDivisionError` exactly when the selected
file set is nonempty but has total byte size zero; when the selected set is
empty the loop body (and with it the progress percentage) is never reached
and an empty archive is produced and returned. -/
theorem export_zero_amended (files : List (String × String)) (world_only : Bool)
    (level_name : String) :
    (exportSelect files (if world_only then level_name else "") = [] →
      mc_export files world_only level_name = .ok []) ∧
    (exportSelect files (if world_only then level_name else "") ≠ [] →
      ((exportSelect files (if world_only then level_name else "")).map
        (fun f => f.2.length)).sum = 0 →
      mc_export files world_only level_name = .error .zeroDivisionError) := by
  constructor
  · intro h
    simp only [mc_export, h]
    rfl
  · intro hne hzero
    rcases hsel : exportSelect files (if world_only then level_name else "") with
      _ | ⟨x, rest⟩
    · exact absurd hsel hne
    · rw [hsel] at hzero
      simp only [mc_export, hsel, hzero]
      simp [exportWrite, hzero]

/-- Witness for C10 amended: an instance whose only file is empty makes the
selected set nonempty with total size zero and the export divides by zero;
an empty selection yields an empty archive. -/
theorem export_zero_amended_witness :
    mc_export [("a", "")] false "" = .error .zeroDivisionError ∧
    mc_export [] false "" = .ok [] :=
  ⟨(export_zero_amended [("a", "")] false "").2 (by decide) (by decide),
   (export_zero_amended [] false "").1 (by decide)⟩

/-- Python `name.replace("../", "")` (`storage.py` line 482): a single
left-to-right pass removing non-overlapping occurrences; scanning resumes
after each removed occurrence, never over the spliced result. -/
def stripDotDotSlash : List Char → List Char
  | '.' :: '.' :: '/' :: rest => stripDotDotSlash rest
  | c :: rest => c :: stripDotDotSlash rest
  | [] => []

/-- `safe_zpath = zpath.filename.replace("../", "")`. -/
def sanitizeMemberName (s : String) : String :=
  ⟨stripDotDotSlash s.data⟩

/-- Does the path start with `/`? -/
def startsWithSlash (s : String) : Bool :=
  match s.data with
  | '/' :: _ => true
  | _ => false

/-- `pathlib`'s `/` operator (`instance_path / safe_zpath`): joining with an
absolute right operand discards the left operand entirely. -/
def pyPathJoin (base rel : String) : String :=
  if startsWithSlash rel then rel else base ++ "/" ++ rel

/-- The destination path computed by `mc_import` for one archive member
(`storage.py` lines 482-483): `dst_path = instance_path / filename.replace("../", "")`. -/
def importDest (instanceDir memberName : String) : String :=
  pyPathJoin instanceDir (sanitizeMemberName memberName)

/-- Split a character list on `/`. -/
def splitSlashChars (acc : List Char) : List Char → List String
  | [] => [⟨acc.reverse⟩]
  | c :: rest =>
    if c = '/' then (⟨acc.reverse⟩ : String) :: splitSlashChars [] rest
    else splitSlashChars (c :: acc) rest

/-- Resolve `.`, `..` and empty segments of an absolute path. -/
def normSegsAux (acc : List String) : List String → List String
  | [] => acc.reverse
  | seg :: rest =>
    if seg = "" ∨ seg = "." then normSegsAux acc rest
    else if seg = ".." then
      match acc with
      | [] => normSegsAux [] rest
      | _ :: t => normSegsAux t rest
    else normSegsAux (seg :: acc) rest

/-- Join segments with `/`. -/
def joinSlash : List String → String
  | [] => ""
  | [s] => s
  | s :: rest => s ++ "/" ++ joinSlash rest

/-- Lexically normalize an absolute path (resolve `.` and `..`). -/
def normalizeAbsPath (s : String) : String :=
  "/" ++ joinSlash (normSegsAux [] (splitSlashChars [] s.data))

/-- C4 counterexample: the claim says no extracted member's destination ever
escapes the instance directory, but the single-pass `../` removal is not
idempotent: the member name `..././x` sanitizes to `../x`, whose
destination normalizes to a path outside the instance directory. -/
theorem import_sanitize_counterexample :
    sanitizeMemberName "..././x" = "../x" ∧
    normalizeAbsPath (importDest "/srv/mc/instances/b" "..././x") =
      "/srv/mc/instances/x" ∧
    (("/srv/mc/instances/b/".data).isPrefixOf
      (normalizeAbsPath (importDest "/srv/mc/instances/b" "..././x")).data) =
      false := by
  decide

/-- C4 amended: each member's destination is the instance directory joined
with the member name after one left-to-right removal pass of `../`; the
claim's own example `../../etc/passwd` does land inside the instance
directory, but the pass is not idempotent, so a crafted name such as
`..././x` still reaches a `../` destination that escapes. -/
theorem import_sanitize_amended :
    sanitizeMemberName "../../etc/passwd" = "etc/passwd" ∧
    importDest "/srv/mc/instances/b" "../../etc/passwd" =
      "/srv/mc/instances/b/etc/passwd" ∧
    importDest "/srv/mc/instances/b" "..././x" = "/srv/mc/instances/b/../x" := by
  decide

/-- The environment of one supervised first start: per polling tick,
whether `watch_file.exists()` holds and whether `proc.poll()` reports the
child exited. -/
structure StartEnv where
  watch : Nat → Bool
  exited : Nat → Bool

/-- The observable outcome of a `pre_start` run: the returned success flag
and how many `terminate()` and `kill()` signals the child received. -/
structure StartResult where
  success : Bool
  terms : Nat
  kills : Nat
deriving DecidableEq, Repr

/-- The polling loop of `pre_start` (`proc.py` lines 188-202), one recursive
step per tick `i` (the `fuel` is the number of remaining loop iterations):
branch 1 terminates the child on the first tick where the watch file exists
and sets `signaled`; branch 2 fires on the final tick `i = kill_sec*fps`
and kills the child; branch 3 breaks with success when the child has
exited. Exhausted fuel is the `for` loop ending without a break. -/
def preStartLoop (env : StartEnv) (N : Nat) :
    Nat → Nat → Bool → Nat → Nat → StartResult
  | 0, _, _, terms, kills => ⟨false, terms, kills⟩
  | fuel + 1, i, signaled, terms, kills =>
    if ¬ signaled ∧ env.watch i then
      preStartLoop env N fuel (i + 1) true (terms + 1) kills
    else if i = N then
      preStartLoop env N fuel (i + 1) signaled terms (kills + 1)
    else if env.exited i then ⟨true, terms, kills⟩
    else preStartLoop env N fuel (i + 1) signaled terms kills

/-- `pre_start` (`proc.py` lines 167-203): fps = 4, ticks `i` range over
`0 .. kill_sec*4` inclusive, `signaled` and `success` start false. -/
def pre_start (env : StartEnv) (kill_sec : Nat) : StartResult :=
  preStartLoop env (kill_sec * 4) (kill_sec * 4 + 1) 0 false 0 0

/-- An environment whose watch file exists from tick 0 on and whose child
never exits (e.g. a server that ignores the termination signal). -/
def envWatchNoExit : StartEnv :=
  ⟨fun _ => true, fun _ => false⟩

/-- C8 counterexample: the watch file is created before the kill timeout
(tick 0 of 4), the child receives the graceful signal exactly once — yet
because it never exits, the final tick force-kills it and `pre_start`
returns false, where the claim promises true. -/
theorem pre_start_counterexample :
    envWatchNoExit.watch 0 = true ∧
    pre_start envWatchNoExit 1 = ⟨false, 1, 1⟩ := by
  constructor
  · rfl
  · rfl

/-- Once `signaled` is set, the loop never terminates the child again. -/
theorem preStartLoop_signaled_terms (env : StartEnv) (N : Nat) :
    ∀ (fuel i terms kills : Nat),
      (preStartLoop env N fuel i true terms kills).terms = terms := by
  intro fuel
  induction fuel with
  | zero => intro i terms kills; rfl
  | succ n ih =>
    intro i terms kills
    simp only [preStartLoop]
    rw [if_neg (by simp)]
    by_cases hN : i = N
    · rw [if_pos hN]
      exact ih (i + 1) terms (kills + 1)
    · rw [if_neg hN]
      by_cases hex : env.exited i = true
      · rw [if_pos hex]
      · rw [if_neg hex]
        exact ih (i + 1) terms kills

/-- The loop sends at most one further graceful signal from any state. -/
theorem preStartLoop_terms_le (env : StartEnv) (N : Nat) :
    ∀ (fuel i terms kills : Nat),
      (preStartLoop env N fuel i false terms kills).terms ≤ terms + 1 := by
  intro fuel
  induction fuel with
  | zero => intro i terms kills; exact Nat.le_succ terms
  | succ n ih =>
    intro i terms kills
    simp only [preStartLoop]
    by_cases hw : env.watch i = true
    · rw [if_pos (by simp [hw])]
      exact Nat.le_of_eq (preStartLoop_signaled_terms env N n (i + 1) (terms + 1) kills)
    · rw [if_neg (by simp [hw])]
      by_cases hN : i = N
      · rw [if_pos hN]
        exact ih (i + 1) terms (kills + 1)
      · rw [if_neg hN]
        by_cases hex : env.exited i = true
        · rw [if_pos hex]
          exact Nat.le_succ terms
        · rw [if_neg hex]
          exact ih (i + 1) terms kills

/-- Walking the loop over ticks `a .. a+d-1` on which nothing happens (no
watch file, no exit, not the final tick) just advances the tick counter. -/
theorem preStartLoop_walk (env : StartEnv) (N : Nat) :
    ∀ (d a fuel terms kills : Nat),
      (∀ s, a ≤ s → s < a + d → env.watch s = false ∧ env.exited s = false ∧ s ≠ N) →
      preStartLoop env N (fuel + d) a false terms kills =
        preStartLoop env N fuel (a + d) false terms kills := by
  intro d
  induction d with
  | zero => intro a fuel terms kills _; rfl
  | succ n ih =>
    intro a fuel terms kills h
    obtain ⟨hw, hex, hN⟩ := h a (Nat.le_refl a) (by omega)
    show (preStartLoop env N ((fuel + n) + 1) a false terms kills) = _
    simp only [preStartLoop]
    rw [if_neg (by simp [hw]), if_neg hN, if_neg (by simp [hex])]
    have harg : a + (n + 1) = (a + 1) + n := by omega
    rw [harg]
    exact ih (a + 1) fuel terms kills
      (fun s hs1 hs2 => h s (by omega) (by omega))

/-- Walking the loop after the graceful signal was sent: only an exit or
the final tick can end it. -/
theorem preStartLoop_walk_signaled (env : StartEnv) (N : Nat) :
    ∀ (d a fuel terms kills : Nat),
      (∀ s, a ≤ s → s < a + d → env.exited s = false ∧ s ≠ N) →
      preStartLoop env N (fuel + d) a true terms kills =
        preStartLoop env N fuel (a + d) true terms kills := by
  intro d
  induction d with
  | zero => intro a fuel terms kills _; rfl
  | succ n ih =>
    intro a fuel terms kills h
    obtain ⟨hex, hN⟩ := h a (Nat.le_refl a) (by omega)
    show (preStartLoop env N ((fuel + n) + 1) a true terms kills) = _
    simp only [preStartLoop]
    rw [if_neg (by simp), if_neg hN, if_neg (by simp [hex])]
    have harg : a + (n + 1) = (a + 1) + n := by omega
    rw [harg]
    exact ih (a + 1) fuel terms kills
      (fun s hs1 hs2 => h s (by omega) (by omega))

/-- If the watch file first appears at tick `t0 ≤ kill_sec*4` and the child
was not seen exited earlier, the run sends exactly one graceful signal. -/
theorem preStart_watch_first (env : StartEnv) (ks t0 : Nat)
    (ht0 : t0 ≤ ks * 4) (hw : env.watch t0 = true)
    (hclean : ∀ s, s < t0 → env.watch s = false ∧ env.exited s = false) :
    (pre_start env ks).terms = 1 := by
  have hwalk := preStartLoop_walk env (ks * 4) t0 0 (ks * 4 + 1 - t0) 0 0
    (fun s hs1 hs2 =>
      ⟨(hclean s (by omega)).1, (hclean s (by omega)).2, by omega⟩)
  have efuel : preStartLoop env (ks * 4) (ks * 4 + 1) 0 false 0 0 =
      preStartLoop env (ks * 4) ((ks * 4 + 1 - t0) + t0) 0 false 0 0 := by
    rw [show (ks * 4 + 1 - t0) + t0 = ks * 4 + 1 from by omega]
  have e1 : pre_start env ks =
      preStartLoop env (ks * 4) (ks * 4 + 1 - t0) t0 false 0 0 :=
    efuel.trans (hwalk.trans (by rw [Nat.zero_add]))
  rw [e1, show ks * 4 + 1 - t0 = (ks * 4 - t0) + 1 from by omega]
  simp only [preStartLoop]
  rw [if_pos (by simp [hw])]
  exact preStartLoop_signaled_terms env (ks * 4) (ks * 4 - t0) (t0 + 1) 1 0

/-- If the watch file never appears and the child never exits before the
final tick, the run force-kills once and reports failure. -/
theorem preStart_timeout_kill (env : StartEnv) (ks : Nat)
    (hw : ∀ t, t ≤ ks * 4 → env.watch t = false)
    (hex : ∀ t, t < ks * 4 → env.exited t = false) :
    pre_start env ks = ⟨false, 0, 1⟩ := by
  have hwalk := preStartLoop_walk env (ks * 4) (ks * 4) 0 1 0 0
    (fun s hs1 hs2 => ⟨hw s (by omega), hex s (by omega), by omega⟩)
  have efuel : preStartLoop env (ks * 4) (ks * 4 + 1) 0 false 0 0 =
      preStartLoop env (ks * 4) (1 + ks * 4) 0 false 0 0 := by
    rw [show (1 : Nat) + ks * 4 = ks * 4 + 1 from by omega]
  have e1 : pre_start env ks =
      preStartLoop env (ks * 4) 1 (ks * 4) false 0 0 :=
    efuel.trans (hwalk.trans (by rw [Nat.zero_add]))
  rw [e1]
  simp only [preStartLoop]
  rw [if_neg (by simp [hw (ks * 4) (Nat.le_refl _)])]
  simp

/-- If the child is observed exited at a tick before the final one, with
the watch file never having appeared so far, the run reports success
without any signal. -/
theorem preStart_early_exit (env : StartEnv) (ks t1 : Nat)
    (ht1 : t1 < ks * 4) (hex : env.exited t1 = true)
    (hw : ∀ s, s ≤ t1 → env.watch s = false)
    (hpre : ∀ s, s < t1 → env.exited s = false) :
    pre_start env ks = ⟨true, 0, 0⟩ := by
  have hwalk := preStartLoop_walk env (ks * 4) t1 0 (ks * 4 + 1 - t1) 0 0
    (fun s hs1 hs2 =>
      ⟨hw s (by omega), hpre s (by omega), by omega⟩)
  have efuel : preStartLoop env (ks * 4) (ks * 4 + 1) 0 false 0 0 =
      preStartLoop env (ks * 4) ((ks * 4 + 1 - t1) + t1) 0 false 0 0 := by
    rw [show (ks * 4 + 1 - t1) + t1 = ks * 4 + 1 from by omega]
  have e1 : pre_start env ks =
      preStartLoop env (ks * 4) (ks * 4 + 1 - t1) t1 false 0 0 :=
    efuel.trans (hwalk.trans (by rw [Nat.zero_add]))
  rw [e1, show ks * 4 + 1 - t1 = (ks * 4 - t1) + 1 from by omega]
  simp only [preStartLoop]
  rw [if_neg (by simp [hw t1 (Nat.le_refl t1)]), if_neg (by omega),
    if_pos hex]

/-- If the watch file appears at `t0` (nothing relevant earlier) and the
child is then observed exited at `t1 < kill_sec*4`, the run sends exactly
one graceful signal and reports success. -/
theorem preStart_watch_then_exit (env : StartEnv) (ks t0 t1 : Nat)
    (h01 : t0 < t1) (ht1 : t1 < ks * 4)
    (hw : env.watch t0 = true)
    (hclean : ∀ s, s < t0 → env.watch s = false ∧ env.exited s = false)
    (hex : env.exited t1 = true)
    (hpre : ∀ s, s < t1 → env.exited s = false) :
    pre_start env ks = ⟨true, 1, 0⟩ := by
  have hwalk := preStartLoop_walk env (ks * 4) t0 0 (ks * 4 + 1 - t0) 0 0
    (fun s hs1 hs2 =>
      ⟨(hclean s (by omega)).1, (hclean s (by omega)).2, by omega⟩)
  have efuel : preStartLoop env (ks * 4) (ks * 4 + 1) 0 false 0 0 =
      preStartLoop env (ks * 4) ((ks * 4 + 1 - t0) + t0) 0 false 0 0 := by
    rw [show (ks * 4 + 1 - t0) + t0 = ks * 4 + 1 from by omega]
  have e1 : pre_start env ks =
      preStartLoop env (ks * 4) (ks * 4 + 1 - t0) t0 false 0 0 :=
    efuel.trans (hwalk.trans (by rw [Nat.zero_add]))
  rw [e1, show ks * 4 + 1 - t0 = (ks * 4 - t0) + 1 from by omega]
  simp only [preStartLoop]
  rw [if_pos (by simp [hw])]
  have hwalk2 := preStartLoop_walk_signaled env (ks * 4) (t1 - (t0 + 1))
    (t0 + 1) ((ks * 4 - t1) + 1) 1 0
    (fun s hs1 hs2 => ⟨hpre s (by omega), by omega⟩)
  have efuel2 : preStartLoop env (ks * 4) (ks * 4 - t0) (t0 + 1) true 1 0 =
      preStartLoop env (ks * 4) (((ks * 4 - t1) + 1) + (t1 - (t0 + 1)))
        (t0 + 1) true 1 0 := by
    rw [show ((ks * 4 - t1) + 1) + (t1 - (t0 + 1)) = ks * 4 - t0 from by omega]
  have e2 : preStartLoop env (ks * 4) (ks * 4 - t0) (t0 + 1) true 1 0 =
      preStartLoop env (ks * 4) ((ks * 4 - t1) + 1) t1 true 1 0 :=
    efuel2.trans (hwalk2.trans
      (by rw [show t0 + 1 + (t1 - (t0 + 1)) = t1 from by omega]))
  rw [e2]
  simp only [preStartLoop]
  rw [if_neg (by simp), if_neg (by omega), if_pos hex]

/-- C8 amended: in every run the graceful-termination signal is sent at
most once (never a second time), and exactly once when the watch file
appears by the final tick with the child not yet exited. The operation
returns true only when the child is observed exited before the final tick
(with or without a preceding graceful signal); if the watch file never
appears and the child never exits before the timeout, the child is
force-killed on the final tick and the operation returns false. (The
original claim promised true whenever the watch file appears before the
timeout; a child that never exits is force-killed and yields false.) -/
theorem pre_start_amended (env : StartEnv) (ks : Nat) :
    (pre_start env ks).terms ≤ 1 ∧
    (∀ t0, t0 ≤ ks * 4 → env.watch t0 = true →
      (∀ s, s < t0 → env.watch s = false ∧ env.exited s = false) →
      (pre_start env ks).terms = 1) ∧
    ((∀ t, t ≤ ks * 4 → env.watch t = false) →
      (∀ t, t < ks * 4 → env.exited t = false) →
      pre_start env ks = ⟨false, 0, 1⟩) ∧
    (∀ t1, t1 < ks * 4 → env.exited t1 = true →
      (∀ s, s ≤ t1 → env.watch s = false) →
      (∀ s, s < t1 → env.exited s = false) →
      pre_start env ks = ⟨true, 0, 0⟩) ∧
    (∀ t0 t1, t0 < t1 → t1 < ks * 4 → env.watch t0 = true →
      (∀ s, s < t0 → env.watch s = false ∧ env.exited s = false) →
      env.exited t1 = true →
      (∀ s, s < t1 → env.exited s = false) →
      pre_start env ks = ⟨true, 1, 0⟩) :=
  ⟨Nat.le_of_lt_succ (Nat.lt_succ_of_le
      (preStartLoop_terms_le env (ks * 4) (ks * 4 + 1) 0 0 0)),
   fun t0 ht0 hw hclean => preStart_watch_first env ks t0 ht0 hw hclean,
   fun hw hex => preStart_timeout_kill env ks hw hex,
   fun t1 ht1 hex hw hpre => preStart_early_exit env ks t1 ht1 hex hw hpre,
   fun t0 t1 h01 ht1 hw hclean hex hpre =>
     preStart_watch_then_exit env ks t0 t1 h01 ht1 hw hclean hex hpre⟩

/-- Environment for the C8 witness: watch file appears at tick 0, the child
exits at tick 2 (of final tick 4 at kill_sec 1). -/
def envWatchThenExit : StartEnv :=
  ⟨fun t => t == 0, fun t => 2 ≤ t⟩

/-- Witness for C8 amended: at kill_sec 1 with the watch file at tick 0 and
the child exiting at tick 2, the run terminates the child exactly once and
returns true; with no watch file and no exit the run force-kills. -/
theorem pre_start_amended_witness :
    pre_start envWatchThenExit 1 = ⟨true, 1, 0⟩ ∧
    pre_start ⟨fun _ => false, fun _ => false⟩ 1 = ⟨false, 0, 1⟩ :=
  ⟨(pre_start_amended envWatchThenExit 1).2.2.2.2 0 2 (by omega) (by omega)
      (by decide)
      (fun s hs => by omega)
      (by decide)
      (fun s hs => by
        show decide (2 ≤ s) = false
        simp
        omega),
   (pre_start_amended ⟨fun _ => false, fun _ => false⟩ 1).2.2.1
      (fun t _ => rfl) (fun t _ => rfl)⟩

/-- The polling loop of `mc_exec` (`proc.py` lines 91-110) as a state
machine over ticks. The state after `t` ticks is `(i, old_count)`:
`old_count` starts at the initial line count minus one
(`sum(1 for line in file_hnd) - 1`); each tick first increments `i`, then
re-reads the file (`lines t` is its total line count at tick `t`); if any
line index beyond `old_count` exists, `i` is reset to
`max_retries - max_flush_retries` and `old_count` becomes the last index.
The loop keeps ticking while `i < max_retries`, so the state freezes once
`i ≥ max_retries`. -/
def mcExecState (mr mfr : Nat) (lines : Nat → Nat) (n0 : Nat) : Nat → Int × Int
  | 0 => (0, (n0 : Int) - 1)
  | t + 1 =>
    let p := mcExecState mr mfr lines n0 t
    if p.1 < (mr : Int) then
      if (lines (t + 1) : Int) - 1 > p.2 then
        ((mr : Int) - (mfr : Int), (lines (t + 1) : Int) - 1)
      else (p.1 + 1, p.2)
    else p

/-- C9: with no new output at all, the counter is exactly `t` after `t`
ticks, so the loop is still polling at every tick before `max_retries` and
stops after exactly `max_retries` idle ticks. When new output appears on
tick `T` (while still polling), the budget is reset: after `k ≤
max_flush_retries` further idle ticks the counter is
`max_retries - max_flush_retries + k`, so the loop stops exactly
`max_flush_retries` idle ticks after the last output, not `max_retries`. -/
theorem mc_exec_retries (mr mfr : Nat) (lines : Nat → Nat) (n0 : Nat) :
    ((∀ t, lines t ≤ n0) →
      ∀ t, t ≤ mr →
        mcExecState mr mfr lines n0 t = ((t : Int), (n0 : Int) - 1)) ∧
    (∀ T, 1 ≤ T →
      (mcExecState mr mfr lines n0 (T - 1)).1 < (mr : Int) →
      ((lines T : Int) - 1 > (mcExecState mr mfr lines n0 (T - 1)).2) →
      (∀ t, T < t → lines t ≤ lines T) →
      ∀ k, k ≤ mfr →
        mcExecState mr mfr lines n0 (T + k) =
          ((mr : Int) - (mfr : Int) + (k : Int), (lines T : Int) - 1)) := by
  constructor
  · intro h t
    induction t with
    | zero => intro _; rfl
    | succ n ih =>
      intro hle
      have hp := ih (by omega)
      simp only [mcExecState, hp]
      have hlt : ((n : Nat) : Int) < (mr : Int) := by
        have : n < mr := by omega
        exact_mod_cast this
      rw [if_pos hlt]
      have hnl : ¬ ((lines (n + 1) : Int) - 1 > ((n0 : Int) - 1)) := by
        have := h (n + 1)
        omega
      rw [if_neg hnl]
      simp only [Prod.mk.injEq]
      constructor
      · push_cast
        ring
      · trivial
  · intro T hT hrun hout hafter k
    induction k with
    | zero =>
      intro _
      have hTeq : T = (T - 1) + 1 := by omega
      simp only [Nat.add_zero]
      conv_lhs => rw [hTeq]
      simp only [mcExecState]
      rw [if_pos hrun, if_pos (by rw [← hTeq]; exact hout)]
      rw [← hTeq]
      simp
    | succ n ih =>
      intro hle
      have hp := ih (by omega)
      show mcExecState mr mfr lines n0 ((T + n) + 1) = _
      simp only [mcExecState, hp]
      have hlt : (mr : Int) - (mfr : Int) + (n : Int) < (mr : Int) := by
        have : n < mfr := by omega
        omega
      rw [if_pos hlt]
      have hnl : ¬ ((lines (T + n + 1) : Int) - 1 > ((lines T : Int) - 1)) := by
        have := hafter (T + n + 1) (by omega)
        omega
      rw [if_neg hnl]
      simp only [Prod.mk.injEq]
      constructor
      · push_cast
        ring
      · trivial

/-- A log file that never grows beyond its initial single line. -/
def linesConst : Nat → Nat := fun _ => 1

/-- A log file with one initial line that gains one line at tick 1 and then
stays silent. -/
def linesBurst : Nat → Nat := fun t => if t = 0 then 1 else 2

/-- Witness for C9 at `max_retries = 3`, `max_flush_retries = 2`: with no
output the counter reaches 3 after 3 idle ticks; with output on tick 1 the
counter reaches 3 already 2 idle ticks later (tick 3), not after 3 more. -/
theorem mc_exec_retries_witness :
    mcExecState 3 2 linesConst 1 3 = (3, 0) ∧
    mcExecState 3 2 linesBurst 1 3 = (3, 1) := by
  constructor
  · have h := (mc_exec_retries 3 2 linesConst 1).1
      (fun t => by simp [linesConst]) 3 (by omega)
    rw [h]
    norm_num
  · have h := (mc_exec_retries 3 2 linesBurst 1).2 1 (by omega)
      (by decide) (by decide)
      (fun t ht => by
        simp only [linesBurst]
        rw [if_neg (by omega), if_neg (by omega)])
      2 (by omega)
    rw [h]
    norm_num [linesBurst]
